import Mathlib

/-!
Verification of the RESP codec in `src/resp.rs` (rust-redis).

Modelling conventions (shallow embedding):
* A Rust `BytesMut` / `&[u8]` buffer is a `List Nat` of byte values (each < 256
  where it matters; the parser only compares bytes against constants).
* A Rust `String` is modelled by its UTF-8 byte content, again a `List Nat`;
  `String::from_utf8` succeeds exactly when the bytes pass `utf8Valid`, and on
  success the resulting `String` has exactly those bytes, so it is the identity
  on the byte list.  `str::chars().count()` on a valid string equals the number
  of non-continuation bytes (`charCount`).
* `anyhow::Result` errors are the typed outcomes `POut.err`; a Rust panic
  (`unwrap`, out-of-bounds index/slice, `panic!`) is `POut.panic`.
* The recursion of `parse_message` through `parse_array` is expressed with a
  fuel parameter (`parse_messageF`); the wrapper `parse_message` supplies
  `buffer.length + 1` fuel, and fuel-monotonicity lemmas below show the result
  is fuel-independent once it is not `outOfFuel`.
-/

/-- The three value variants of `enum Value` in `src/resp.rs`. -/
inductive Value where
  | simpleString : List Nat → Value
  | bulkString : List Nat → Value
  | array : List Value → Value

/-- Typed decode errors: each constructor corresponds to one `anyhow!` site in
`src/resp.rs`. `unknownType` is "Not a known value type"; `malformedHeader`
covers "Invalid String" / "Invalid Array" / "Invalid array format" (delimiter
not found); `invalidLength` is a failure inside `parse_int`; `invalidEncoding`
is the `String::from_utf8(...)?` failure in `parse_bulk_string`. -/
inductive PErr where
  | unknownType
  | malformedHeader
  | invalidLength
  | invalidEncoding
  deriving DecidableEq, Repr

/-- Outcome of a parse call: `ok value consumed` models `Ok((value, consumed))`,
`err` a returned `anyhow` error, `panic` a Rust panic (unwrap / out-of-bounds),
and `outOfFuel` is the fuel-exhaustion artefact of the embedding (shown
irrelevant by the monotonicity lemmas). -/
inductive POut where
  | ok : Value → Nat → POut
  | err : PErr → POut
  | panic : POut
  | outOfFuel : POut

/-- `read_until_crlf` from `src/resp.rs`: scan for the first adjacent
`\r\n` (13, 10) pair; return the bytes before it and the length consumed
including the delimiter. The source loops `for i in 1..buffer.len()` testing
`buffer[i-1] == b'\r' && buffer[i] == b'\n'` and returns
`(&buffer[..i-1], i + 1)`. -/
def read_until_crlf : List Nat → Option (List Nat × Nat)
  | a :: b :: rest =>
      if a = 13 ∧ b = 10 then some ([], 2)
      else
        match read_until_crlf (b :: rest) with
        | some (line, n) => some (a :: line, n + 1)
        | none => none
  | _ => none

/-- Specification-side predicate: the byte list contains an adjacent 13,10 pair. -/
def hasCRLF : List Nat → Bool
  | a :: b :: rest => (a = 13 && b = 10) || hasCRLF (b :: rest)
  | _ => false

/-- State-machine core of strict UTF-8 validation.  The first argument lists
the inclusive byte ranges still expected to finish the current multi-byte
character (empty when at a character boundary); a lead byte pushes the ranges
its continuation bytes must satisfy.  This matches Rust's `String::from_utf8`:
overlong encodings (C0/C1, E0 A0-, F0 90-), surrogates (ED A0–BF), and scalars
above 0x10FFFF (F4 90-, F5+) are rejected. -/
def utf8ValidAux : List (Nat × Nat) → List Nat → Bool
  | [], [] => true
  | _ :: _, [] => false
  | [], b :: rest =>
      if b < 0x80 then utf8ValidAux [] rest
      else if b < 0xC2 then false
      else if b < 0xE0 then utf8ValidAux [(0x80, 0xBF)] rest
      else if b = 0xE0 then utf8ValidAux [(0xA0, 0xBF), (0x80, 0xBF)] rest
      else if b = 0xED then utf8ValidAux [(0x80, 0x9F), (0x80, 0xBF)] rest
      else if b < 0xF0 then utf8ValidAux [(0x80, 0xBF), (0x80, 0xBF)] rest
      else if b = 0xF0 then utf8ValidAux [(0x90, 0xBF), (0x80, 0xBF), (0x80, 0xBF)] rest
      else if b = 0xF4 then utf8ValidAux [(0x80, 0x8F), (0x80, 0xBF), (0x80, 0xBF)] rest
      else if b < 0xF5 then utf8ValidAux [(0x80, 0xBF), (0x80, 0xBF), (0x80, 0xBF)] rest
      else false
  | (lo, hi) :: expected, b :: rest =>
      (decide (lo ≤ b) && decide (b ≤ hi)) && utf8ValidAux expected rest

/-- Strict UTF-8 validity of a byte sequence, as checked by Rust's
`String::from_utf8`. -/
def utf8Valid (l : List Nat) : Bool := utf8ValidAux [] l

/-- `s.chars().count()` of a valid UTF-8 string modelled by its bytes: the
number of bytes that are not UTF-8 continuation bytes (0x80–0xBF). -/
def charCount (s : List Nat) : Nat :=
  (s.filter (fun b => decide (b < 0x80) || decide (0xC0 ≤ b))).length

/-- Little-endian decimal digits of a natural number, with fuel (the fuel `n`
itself always suffices, see `natDigitsRevF_val`). -/
def natDigitsRevF : Nat → Nat → List Nat
  | 0, _ => []
  | fuel + 1, n => if n = 0 then [] else n % 10 :: natDigitsRevF fuel (n / 10)

/-- ASCII bytes of the usual decimal rendering of a natural number, as produced
by Rust's `format!("{}", n)`. -/
def natDecimal (n : Nat) : List Nat :=
  if n = 0 then [48] else (natDigitsRevF n n).reverse.map (fun d => d + 48)

/-- Sign handling of Rust's `str::parse::<i64>`: an optional leading `+`/`-`. -/
def parseSign (s : List Nat) : Int × List Nat :=
  match s with
  | b :: rest => if b = 43 then (1, rest) else if b = 45 then ((-1 : Int), rest) else (1, s)
  | [] => (1, s)

/-- Accumulate ASCII decimal digit bytes left-to-right. -/
def digitsToNat (l : List Nat) : Nat :=
  l.foldl (fun acc d => acc * 10 + (d - 48)) 0

/-- The numeric value of `str::parse::<i64>` ignoring the i64 range check:
`none` when the text is not an optionally-signed nonempty digit string. -/
def parseIntVal (s : List Nat) : Option Int :=
  if (parseSign s).2 = [] then none
  else if (parseSign s).2.all (fun b => decide (48 ≤ b) && decide (b ≤ 57)) then
    some ((parseSign s).1 * (digitsToNat (parseSign s).2 : Nat))
  else none

/-- `parse_int` from `src/resp.rs`:
`String::from_utf8(buffer.to_vec())?.parse::<i64>()?`. Both failure modes
(invalid UTF-8, non-numeric or out-of-i64-range text) surface as the same typed
error. -/
def parse_int (line : List Nat) : Except PErr Int :=
  if utf8Valid line then
    match parseIntVal line with
    | some v =>
        if v < -(2 ^ 63 : Int) ∨ (2 ^ 63 - 1 : Int) < v then .error .invalidLength
        else .ok v
    | none => .error .invalidLength
  else .error .invalidLength

/-- The Rust cast `n as usize` for `n : i64` (two's-complement wrap into
`[0, 2^64)`). -/
def i64AsUsize (n : Int) : Nat := (n % (2 ^ 64 : Int)).toNat

/-- `parse_simple_string` from `src/resp.rs`. Note the
`String::from_utf8(line.to_vec()).unwrap()`: invalid UTF-8 is a panic, not an
error. Consumed count is `len + 1` (scan length over `buffer[1..]` plus the
prefix byte). -/
def parse_simple_string (buffer : List Nat) : POut :=
  match read_until_crlf (buffer.drop 1) with
  | some (line, len) =>
      if utf8Valid line then .ok (.simpleString line) (len + 1) else .panic
  | none => .err .malformedHeader

/-- `parse_bulk_string` from `src/resp.rs`.  After reading the declared length,
the source slices `buffer[bytes_consumsed..end_of_bulk_str]` (a panic when the
range is out of bounds — under wrapping or checked arithmetic alike, a negative
declared length also always panics here) and never inspects the two bytes it
accounts for as the trailing delimiter. -/
def parse_bulk_string (buffer : List Nat) : POut :=
  match read_until_crlf (buffer.drop 1) with
  | none => .err .malformedHeader
  | some (line, len) =>
    match parse_int line with
    | .error e => .err e
    | .ok array_length =>
      let bytes_consumsed := len + 1
      let end_of_bulk_str := bytes_consumsed + i64AsUsize array_length
      let total_parsed := end_of_bulk_str + 2
      if end_of_bulk_str ≤ buffer.length then
        let payload := (buffer.drop bytes_consumsed).take (end_of_bulk_str - bytes_consumsed)
        if utf8Valid payload then .ok (.bulkString payload) total_parsed
        else .err .invalidEncoding
      else .panic

/-- The `for _ in 0..array_length` loop of `parse_array`, abstracted over the
recursive message parser `pm`.  Each iteration slices
`&buffer[bytes_consumed..]` (panic when `bytes_consumed > buffer.len()`),
parses one element, pushes it, and advances by the element's consumed count. -/
def parse_loopF (pm : List Nat → POut) : List Nat → Nat → Nat → List Value → POut
  | _, bytes_consumed, 0, items => .ok (.array items) bytes_consumed
  | buffer, bytes_consumed, k + 1, items =>
      if bytes_consumed ≤ buffer.length then
        match pm (buffer.drop bytes_consumed) with
        | .ok v len => parse_loopF pm buffer (bytes_consumed + len) k (items ++ [v])
        | .err e => .err e
        | .panic => .panic
        | .outOfFuel => .outOfFuel
      else .panic

/-- `parse_array` from `src/resp.rs`, abstracted over the recursive message
parser.  A negative declared count runs the loop zero times
(`(0..n)` over `i64` is empty), i.e. `array_length.toNat` iterations. -/
def parse_array_with (pm : List Nat → POut) (buffer : List Nat) : POut :=
  match read_until_crlf (buffer.drop 1) with
  | none => .err .malformedHeader
  | some (line, len) =>
    match parse_int line with
    | .error e => .err e
    | .ok array_length =>
        parse_loopF pm buffer (len + 1) array_length.toNat []

/-- `parse_message` from `src/resp.rs`, with fuel for the
`parse_array → parse_message` recursion.  `buffer[0]` on an empty buffer is a
panic.  Dispatch bytes: 43 `+`, 36 `$`, 42 `*`. -/
def parse_messageF : Nat → List Nat → POut
  | 0 => fun _ => .outOfFuel
  | fuel + 1 => fun buffer =>
    match buffer with
    | [] => .panic
    | b :: _ =>
      if b = 43 then parse_simple_string buffer
      else if b = 36 then parse_bulk_string buffer
      else if b = 42 then parse_array_with (parse_messageF fuel) buffer
      else .err .unknownType

/-- Top-level decoder: `buffer.length + 1` fuel always suffices (each recursive
call strictly shrinks the buffer, see the monotonicity lemmas). -/
def parse_message (buffer : List Nat) : POut :=
  parse_messageF (buffer.length + 1) buffer

/-- `Value::serialise` from `src/resp.rs`.  `none` models the
`panic!("Not implemented for serialize")` arm hit by `Value::Array`.  The bulk
header writes `s.chars().count()` — the char count, not the byte count. -/
def serialise : Value → Option (List Nat)
  | .simpleString s => some (43 :: (s ++ [13, 10]))
  | .bulkString s => some (36 :: (natDecimal (charCount s) ++ [13, 10] ++ s ++ [13, 10]))
  | .array _ => none

/-- Result of one `RespHandler::read_value` call. -/
inductive ReadOutcome where
  | closed
  | value : Value → ReadOutcome
  | err : PErr → ReadOutcome
  | panicked : ReadOutcome

/-- `RespHandler::read_value` from `src/resp.rs`, as a pure function of the
accumulated buffer and the bytes the transport read delivers: zero bytes read
returns `Ok(None)` (closed); otherwise `self.buffer.split()` hands the *entire*
accumulated buffer to `parse_message` and leaves the handler's buffer empty —
the consumed count is discarded (`let (v, _) = ...`). -/
def read_value (buffer newBytes : List Nat) : ReadOutcome × List Nat :=
  if newBytes = [] then (.closed, buffer)
  else
    match parse_message (buffer ++ newBytes) with
    | .ok v _ => (.value v, [])
    | .err e => (.err e, [])
    | .panic => (.panicked, [])
    | .outOfFuel => (.panicked, [])

/-! ### Lemmas about the frame scanner -/

theorem hasCRLF_cons_cons (a b : Nat) (t : List Nat) :
    hasCRLF (a :: b :: t) = ((a = 13 && b = 10) || hasCRLF (b :: t)) := rfl

theorem read_until_crlf_cons_cons (a b : Nat) (t : List Nat) :
    read_until_crlf (a :: b :: t) =
      (if a = 13 ∧ b = 10 then some ([], 2)
       else
        match read_until_crlf (b :: t) with
        | some (line, n) => some (a :: line, n + 1)
        | none => none) := rfl

/-- If no CRLF pair occurs, the scanner reports "not found". -/
theorem read_until_crlf_none (l : List Nat) (h : hasCRLF l = false) :
    read_until_crlf l = none := by
  induction l with
  | nil => rfl
  | cons a t ih =>
    cases t with
    | nil => rfl
    | cons b t2 =>
      rw [hasCRLF_cons_cons] at h
      simp only [Bool.or_eq_false_iff, Bool.and_eq_false_iff, decide_eq_false_iff_not] at h
      rw [read_until_crlf_cons_cons, if_neg (by tauto), ih h.2]

/-- If a CRLF pair occurs, the scanner finds something. -/
theorem read_until_crlf_isSome (l : List Nat) (h : hasCRLF l = true) :
    (read_until_crlf l).isSome := by
  induction l with
  | nil => simp [hasCRLF] at h
  | cons a t ih =>
    cases t with
    | nil => simp [hasCRLF] at h
    | cons b t2 =>
      rw [read_until_crlf_cons_cons]
      by_cases hab : a = 13 ∧ b = 10
      · rw [if_pos hab]; rfl
      · rw [if_neg hab]
        rw [hasCRLF_cons_cons] at h
        have h2 : hasCRLF (b :: t2) = true := by
          rcases Bool.or_eq_true_iff.mp h with h1 | h1
          · exact absurd ⟨of_decide_eq_true (Bool.and_eq_true_iff.mp h1).1,
              of_decide_eq_true (Bool.and_eq_true_iff.mp h1).2⟩ hab
          · exact h1
        rcases Option.isSome_iff_exists.mp (ih h2) with ⟨⟨line, n⟩, hl⟩
        rw [hl]
        rfl

/-- The scanner returns the bytes before the first CRLF and the length
consumed including the two delimiter bytes. -/
theorem read_until_crlf_append (pre rest : List Nat) (h : hasCRLF pre = false) :
    read_until_crlf (pre ++ 13 :: 10 :: rest) = some (pre, pre.length + 2) := by
  induction pre with
  | nil => rfl
  | cons a t ih =>
    cases t with
    | nil =>
      rw [List.cons_append, List.nil_append, read_until_crlf_cons_cons,
        if_neg (by rintro ⟨-, h10⟩; exact absurd h10 (by norm_num))]
      rw [show read_until_crlf (13 :: 10 :: rest) = some ([], 2) from by
        rw [read_until_crlf_cons_cons, if_pos ⟨rfl, rfl⟩]]
      rfl
    | cons b t2 =>
      rw [hasCRLF_cons_cons] at h
      simp only [Bool.or_eq_false_iff, Bool.and_eq_false_iff, decide_eq_false_iff_not] at h
      have ihh := ih h.2
      simp only [List.cons_append] at ihh ⊢
      rw [read_until_crlf_cons_cons, if_neg (by tauto), ihh]
      show some (a :: b :: t2, (b :: t2).length + 2 + 1) =
        some (a :: b :: t2, (a :: b :: t2).length + 2)
      simp only [Option.some.injEq, Prod.mk.injEq, List.length_cons]

/-- A byte list without any byte 13 contains no CRLF pair. -/
theorem hasCRLF_false_of_no13 (l : List Nat) (h : ∀ b ∈ l, b ≠ 13) :
    hasCRLF l = false := by
  induction l with
  | nil => rfl
  | cons a t ih =>
    cases t with
    | nil => rfl
    | cons b t2 =>
      rw [hasCRLF_cons_cons, ih (fun x hx => h x (List.mem_cons_of_mem a hx))]
      have ha : a ≠ 13 := h a (List.mem_cons_self a _)
      simp only [Bool.or_false, Bool.and_eq_false_iff, decide_eq_false_iff_not]
      exact Or.inl ha

/-- Dropping the first byte preserves absence of CRLF pairs. -/
theorem hasCRLF_drop_one (l : List Nat) (h : hasCRLF l = false) :
    hasCRLF (l.drop 1) = false := by
  cases l with
  | nil => rfl
  | cons a t =>
    cases t with
    | nil => rfl
    | cons b t2 =>
      rw [hasCRLF_cons_cons] at h
      simp only [Bool.or_eq_false_iff] at h
      simpa using h.2

/-! ### Lemmas about UTF-8 validity and char counting -/

theorem utf8ValidAux_nil_cons_lt (a : Nat) (t : List Nat) (h : a < 0x80) :
    utf8ValidAux [] (a :: t) = utf8ValidAux [] t := by
  rw [utf8ValidAux]
  rw [if_pos h]

/-- ASCII byte lists are valid UTF-8. -/
theorem utf8Valid_of_ascii (l : List Nat) (h : ∀ b ∈ l, b < 128) :
    utf8Valid l = true := by
  unfold utf8Valid
  induction l with
  | nil => rfl
  | cons a t ih =>
    have ha : a < 128 := h a (List.mem_cons_self a _)
    rw [utf8ValidAux_nil_cons_lt a t (by omega)]
    exact ih (fun x hx => h x (List.mem_cons_of_mem a hx))

/-- On ASCII text the char count equals the byte count. -/
theorem charCount_of_ascii (l : List Nat) (h : ∀ b ∈ l, b < 128) :
    charCount l = l.length := by
  unfold charCount
  rw [List.filter_eq_self.mpr]
  intro a ha
  have := h a ha
  simp [decide_eq_true_eq]
  omega

/-! ### Decimal rendering and `parse_int` round-trip lemmas -/

/-- Value of a little-endian digit list. -/
def revVal (l : List Nat) : Nat := l.foldr (fun d acc => d + 10 * acc) 0

theorem natDigitsRevF_val : ∀ fuel n : Nat, n ≤ fuel → revVal (natDigitsRevF fuel n) = n := by
  intro fuel
  induction fuel with
  | zero => intro n hn; interval_cases n; rfl
  | succ f ih =>
    intro n hn
    rw [natDigitsRevF]
    by_cases h0 : n = 0
    · rw [if_pos h0, h0]; rfl
    · rw [if_neg h0]
      have hdiv : n / 10 ≤ f := by
        have := Nat.div_lt_self (Nat.pos_of_ne_zero h0) (by norm_num : 1 < 10)
        omega
      show n % 10 + 10 * revVal (natDigitsRevF f (n / 10)) = n
      rw [ih (n / 10) hdiv]
      omega

theorem natDigitsRevF_lt10 : ∀ fuel n : Nat, ∀ d ∈ natDigitsRevF fuel n, d < 10 := by
  intro fuel
  induction fuel with
  | zero => intro n d hd; simp [natDigitsRevF] at hd
  | succ f ih =>
    intro n d hd
    rw [natDigitsRevF] at hd
    by_cases h0 : n = 0
    · rw [if_pos h0] at hd; simp at hd
    · rw [if_neg h0] at hd
      rcases List.mem_cons.mp hd with h | h
      · subst h; exact Nat.mod_lt n (by norm_num)
      · exact ih (n / 10) d h

theorem digitsToNat_rev_map (l : List Nat) (hl : ∀ d ∈ l, d < 10) :
    ∀ acc : Nat, (l.reverse.map (fun d => d + 48)).foldl (fun a b => a * 10 + (b - 48)) acc
      = acc * 10 ^ l.length + revVal l := by
  induction l with
  | nil => intro acc; simp [revVal]
  | cons d t ih =>
    intro acc
    have hd : d < 10 := hl d (List.mem_cons_self d t)
    rw [List.reverse_cons, List.map_append, List.foldl_append]
    rw [ih (fun x hx => hl x (List.mem_cons_of_mem d hx)) acc]
    show (acc * 10 ^ t.length + revVal t) * 10 + (d + 48 - 48)
      = acc * 10 ^ (d :: t).length + revVal (d :: t)
    have hrv : revVal (d :: t) = d + 10 * revVal t := rfl
    have hd48 : d + 48 - 48 = d := by omega
    rw [hrv, List.length_cons, pow_succ, hd48]
    ring

theorem digitsToNat_natDecimal (n : Nat) : digitsToNat (natDecimal n) = n := by
  by_cases h0 : n = 0
  · subst h0; rfl
  · rw [natDecimal, if_neg h0]
    unfold digitsToNat
    rw [digitsToNat_rev_map _ (natDigitsRevF_lt10 n n) 0, natDigitsRevF_val n n le_rfl]
    omega

theorem natDecimal_digits (n : Nat) : ∀ b ∈ natDecimal n, 48 ≤ b ∧ b ≤ 57 := by
  intro b hb
  rw [natDecimal] at hb
  by_cases h0 : n = 0
  · rw [if_pos h0] at hb
    rcases List.mem_singleton.mp hb with rfl
    omega
  · rw [if_neg h0] at hb
    rcases List.mem_map.mp hb with ⟨d, hd, rfl⟩
    have := natDigitsRevF_lt10 n n d (List.mem_reverse.mp hd)
    omega

theorem natDecimal_ne_nil (n : Nat) : natDecimal n ≠ [] := by
  rw [natDecimal]
  by_cases h0 : n = 0
  · rw [if_pos h0]; simp
  · rw [if_neg h0]
    cases n with
    | zero => exact absurd rfl h0
    | succ m =>
      rw [natDigitsRevF, if_neg h0]
      simp

theorem parseSign_natDecimal (n : Nat) : parseSign (natDecimal n) = (1, natDecimal n) := by
  rcases hD : natDecimal n with _ | ⟨b, t⟩
  · exact absurd hD (natDecimal_ne_nil n)
  · have hb : 48 ≤ b ∧ b ≤ 57 := natDecimal_digits n b (hD ▸ List.mem_cons_self b t)
    rw [parseSign]
    rw [if_neg (by omega), if_neg (by omega)]

theorem natDecimal_all_digit (n : Nat) :
    (natDecimal n).all (fun b => decide (48 ≤ b) && decide (b ≤ 57)) = true :=
  List.all_eq_true.mpr (fun b hb => by
    have := natDecimal_digits n b hb
    simp only [Bool.and_eq_true, decide_eq_true_eq]
    omega)

theorem parseIntVal_natDecimal (n : Nat) :
    parseIntVal (natDecimal n) = some ((n : Nat) : Int) := by
  rw [parseIntVal]
  simp only [parseSign_natDecimal n]
  rw [if_neg (natDecimal_ne_nil n), if_pos (natDecimal_all_digit n)]
  rw [digitsToNat_natDecimal, one_mul]

theorem parse_int_natDecimal (n : Nat) (h : n < 2 ^ 63) :
    parse_int (natDecimal n) = .ok (n : Int) := by
  have hdig := natDecimal_digits n
  rw [parse_int,
    if_pos (utf8Valid_of_ascii _ (fun b hb => by have := hdig b hb; omega))]
  rw [parseIntVal_natDecimal]
  change (if (n : Int) < -(2 ^ 63 : Int) ∨ (2 ^ 63 - 1 : Int) < (n : Int)
      then Except.error PErr.invalidLength else Except.ok (n : Int))
    = Except.ok (n : Int)
  rw [if_neg (by
    have h0 : (0 : Int) ≤ (n : Int) := Int.natCast_nonneg n
    have hlt : (n : Int) < 2 ^ 63 := by exact_mod_cast h
    rintro (hc | hc) <;> omega)]

theorem parseSign_neg_natDecimal (m : Nat) :
    parseSign (45 :: natDecimal m) = ((-1 : Int), natDecimal m) := by
  rw [parseSign]
  rw [if_neg (by omega), if_pos rfl]

theorem parseIntVal_neg_natDecimal (m : Nat) :
    parseIntVal (45 :: natDecimal m) = some (-((m : Nat) : Int)) := by
  rw [parseIntVal]
  simp only [parseSign_neg_natDecimal m]
  rw [if_neg (natDecimal_ne_nil m), if_pos (natDecimal_all_digit m)]
  rw [digitsToNat_natDecimal, neg_one_mul]

theorem parse_int_neg_natDecimal (m : Nat) (h2 : m ≤ 2 ^ 63) :
    parse_int (45 :: natDecimal m) = .ok (-(m : Int)) := by
  have hdig := natDecimal_digits m
  rw [parse_int,
    if_pos (utf8Valid_of_ascii _ (fun b hb => by
      rcases List.mem_cons.mp hb with rfl | hb2
      · omega
      · have := hdig b hb2; omega))]
  rw [parseIntVal_neg_natDecimal]
  change (if -(m : Int) < -(2 ^ 63 : Int) ∨ (2 ^ 63 - 1 : Int) < -(m : Int)
      then Except.error PErr.invalidLength else Except.ok (-(m : Int)))
    = Except.ok (-(m : Int))
  rw [if_neg (by
    have h0 : (0 : Int) ≤ (m : Int) := Int.natCast_nonneg m
    have hle : (m : Int) ≤ 2 ^ 63 := by exact_mod_cast h2
    rintro (hc | hc) <;> omega)]

theorem parse_int_ok_range (l : List Nat) (v : Int) (h : parse_int l = .ok v) :
    -(2 ^ 63 : Int) ≤ v ∧ v ≤ 2 ^ 63 - 1 := by
  rw [parse_int] at h
  by_cases h1 : utf8Valid l = true
  · rw [if_pos h1] at h
    rcases hv : parseIntVal l with - | w
    · rw [hv] at h; exact absurd h (by simp)
    · rw [hv] at h
      change (if w < -(2 ^ 63 : Int) ∨ (2 ^ 63 - 1 : Int) < w
        then Except.error PErr.invalidLength else Except.ok w) = Except.ok v at h
      by_cases h2 : w < -(2 ^ 63 : Int) ∨ (2 ^ 63 - 1 : Int) < w
      · rw [if_pos h2] at h; exact absurd h (by simp)
      · rw [if_neg h2] at h
        have : w = v := by simpa using h
        subst this
        push_neg at h2
        exact ⟨h2.1, h2.2⟩
  · rw [if_neg h1] at h; exact absurd h (by simp)

theorem i64AsUsize_of_range (v : Int) (h0 : 0 ≤ v) (h : v < 2 ^ 64) :
    i64AsUsize v = v.toNat := by
  rw [i64AsUsize, Int.emod_eq_of_lt h0 h]

theorem i64AsUsize_coe (n : Nat) (h : n < 2 ^ 64) : i64AsUsize (n : Int) = n := by
  rw [i64AsUsize_of_range _ (by positivity) (by push_cast; omega), Int.toNat_natCast]

/-! ### Unfolding equations and fuel monotonicity for the message parser -/

theorem parse_messageF_succ_cons (f x : Nat) (t : List Nat) :
    parse_messageF (f + 1) (x :: t) =
      (if x = 43 then parse_simple_string (x :: t)
       else if x = 36 then parse_bulk_string (x :: t)
       else if x = 42 then parse_array_with (parse_messageF f) (x :: t)
       else .err .unknownType) := rfl

theorem parse_message_cons (x : Nat) (t : List Nat) :
    parse_message (x :: t) =
      (if x = 43 then parse_simple_string (x :: t)
       else if x = 36 then parse_bulk_string (x :: t)
       else if x = 42 then parse_array_with (parse_messageF (t.length + 1)) (x :: t)
       else .err .unknownType) := rfl

theorem parse_array_with_none (pm : List Nat → POut) (buffer : List Nat)
    (h : read_until_crlf (buffer.drop 1) = none) :
    parse_array_with pm buffer = .err .malformedHeader := by
  rw [parse_array_with, h]

theorem parse_array_with_some (pm : List Nat → POut) (buffer line : List Nat) (len : Nat)
    (h : read_until_crlf (buffer.drop 1) = some (line, len)) :
    parse_array_with pm buffer =
      (match parse_int line with
       | .error e => .err e
       | .ok array_length => parse_loopF pm buffer (len + 1) array_length.toNat []) := by
  rw [parse_array_with, h]

theorem parse_loopF_succ_nle (pm : List Nat → POut) (B : List Nat) (bc k : Nat)
    (items : List Value) (h : ¬ bc ≤ B.length) :
    parse_loopF pm B bc (k + 1) items = .panic := by
  rw [parse_loopF, if_neg h]

theorem parse_loopF_succ_ok (pm : List Nat → POut) (B : List Nat) (bc k : Nat)
    (items : List Value) (v : Value) (len : Nat)
    (hbc : bc ≤ B.length) (hr : pm (B.drop bc) = .ok v len) :
    parse_loopF pm B bc (k + 1) items = parse_loopF pm B (bc + len) k (items ++ [v]) := by
  rw [parse_loopF, if_pos hbc, hr]

theorem parse_loopF_succ_err (pm : List Nat → POut) (B : List Nat) (bc k : Nat)
    (items : List Value) (e : PErr)
    (hbc : bc ≤ B.length) (hr : pm (B.drop bc) = .err e) :
    parse_loopF pm B bc (k + 1) items = .err e := by
  rw [parse_loopF, if_pos hbc, hr]

theorem parse_loopF_succ_panic (pm : List Nat → POut) (B : List Nat) (bc k : Nat)
    (items : List Value)
    (hbc : bc ≤ B.length) (hr : pm (B.drop bc) = .panic) :
    parse_loopF pm B bc (k + 1) items = .panic := by
  rw [parse_loopF, if_pos hbc, hr]

theorem parse_loopF_succ_oof (pm : List Nat → POut) (B : List Nat) (bc k : Nat)
    (items : List Value)
    (hbc : bc ≤ B.length) (hr : pm (B.drop bc) = .outOfFuel) :
    parse_loopF pm B bc (k + 1) items = .outOfFuel := by
  rw [parse_loopF, if_pos hbc, hr]

theorem parse_loopF_mono (pm pm2 : List Nat → POut)
    (hpm : ∀ b, pm b ≠ .outOfFuel → pm2 b = pm b) :
    ∀ (k : Nat) (bc : Nat) (B : List Nat) (items : List Value),
      parse_loopF pm B bc k items ≠ .outOfFuel →
      parse_loopF pm2 B bc k items = parse_loopF pm B bc k items := by
  intro k
  induction k with
  | zero => intro bc B items _; rfl
  | succ k ih =>
    intro bc B items h
    by_cases hbc : bc ≤ B.length
    · cases hr : pm (B.drop bc) with
      | ok v len =>
        have hne : pm (B.drop bc) ≠ .outOfFuel := by rw [hr]; simp
        have hr2 : pm2 (B.drop bc) = .ok v len := (hpm _ hne).trans hr
        rw [parse_loopF_succ_ok pm B bc k items v len hbc hr] at h ⊢
        rw [parse_loopF_succ_ok pm2 B bc k items v len hbc hr2]
        exact ih (bc + len) B (items ++ [v]) h
      | err e =>
        have hne : pm (B.drop bc) ≠ .outOfFuel := by rw [hr]; simp
        have hr2 : pm2 (B.drop bc) = .err e := (hpm _ hne).trans hr
        rw [parse_loopF_succ_err pm B bc k items e hbc hr,
          parse_loopF_succ_err pm2 B bc k items e hbc hr2]
      | panic =>
        have hne : pm (B.drop bc) ≠ .outOfFuel := by rw [hr]; simp
        have hr2 : pm2 (B.drop bc) = .panic := (hpm _ hne).trans hr
        rw [parse_loopF_succ_panic pm B bc k items hbc hr,
          parse_loopF_succ_panic pm2 B bc k items hbc hr2]
      | outOfFuel =>
        rw [parse_loopF_succ_oof pm B bc k items hbc hr] at h
        exact absurd rfl h
    · rw [parse_loopF_succ_nle pm B bc k items hbc,
        parse_loopF_succ_nle pm2 B bc k items hbc]

theorem parse_messageF_mono :
    ∀ f f2 : Nat, f ≤ f2 → ∀ b : List Nat, parse_messageF f b ≠ .outOfFuel →
      parse_messageF f2 b = parse_messageF f b := by
  intro f
  induction f with
  | zero => intro f2 _ b hb; exact absurd rfl hb
  | succ f ih =>
    intro f2 hf b hb
    obtain ⟨f3, rfl⟩ : ∃ f3, f2 = f3 + 1 := ⟨f2 - 1, by omega⟩
    cases b with
    | nil => rfl
    | cons x t =>
      rw [parse_messageF_succ_cons f3 x t, parse_messageF_succ_cons f x t]
      by_cases h43 : x = 43
      · rw [if_pos h43, if_pos h43]
      · rw [if_neg h43, if_neg h43]
        by_cases h36 : x = 36
        · rw [if_pos h36, if_pos h36]
        · rw [if_neg h36, if_neg h36]
          by_cases h42 : x = 42
          · rw [if_pos h42, if_pos h42]
            rw [parse_messageF_succ_cons f x t, if_neg h43, if_neg h36, if_pos h42] at hb
            rcases hru : read_until_crlf ((x :: t).drop 1) with - | ⟨line, len⟩
            · rw [parse_array_with_none _ _ hru, parse_array_with_none _ _ hru]
            · rw [parse_array_with_some _ _ line len hru] at hb ⊢
              rw [parse_array_with_some _ _ line len hru]
              rcases hpi : parse_int line with e | n
              · rfl
              · rw [hpi] at hb
                exact parse_loopF_mono (parse_messageF f) (parse_messageF f3)
                  (fun b2 hb2 => ih f3 (by omega) b2 hb2) n.toNat (len + 1) (x :: t) [] hb
          · rw [if_neg h42, if_neg h42]

/-- Transfer a top-level `parse_message` result to any sufficiently large fuel. -/
theorem parse_messageF_of_parse_message (b : List Nat) (r : POut)
    (h : parse_message b = r) (hr : r ≠ .outOfFuel) (f : Nat) (hf : b.length + 1 ≤ f) :
    parse_messageF f b = r := by
  rw [← h]
  exact parse_messageF_mono (b.length + 1) f hf b (by rw [show parse_messageF (b.length + 1) b = parse_message b from rfl, h]; exact hr)

/-! ### Conditional evaluation lemmas for the three frame parsers -/

theorem parse_simple_string_none (buffer : List Nat)
    (h : read_until_crlf (buffer.drop 1) = none) :
    parse_simple_string buffer = .err .malformedHeader := by
  rw [parse_simple_string, h]

theorem parse_simple_string_some (buffer line : List Nat) (len : Nat)
    (h : read_until_crlf (buffer.drop 1) = some (line, len)) :
    parse_simple_string buffer =
      (if utf8Valid line then .ok (.simpleString line) (len + 1) else .panic) := by
  rw [parse_simple_string, h]

theorem parse_bulk_string_none (buffer : List Nat)
    (h : read_until_crlf (buffer.drop 1) = none) :
    parse_bulk_string buffer = .err .malformedHeader := by
  rw [parse_bulk_string, h]

theorem parse_bulk_string_ok (buffer line : List Nat) (len : Nat) (n : Int)
    (h : read_until_crlf (buffer.drop 1) = some (line, len))
    (hp : parse_int line = .ok n) :
    parse_bulk_string buffer =
      (if len + 1 + i64AsUsize n ≤ buffer.length then
        (if utf8Valid ((buffer.drop (len + 1)).take (len + 1 + i64AsUsize n - (len + 1)))
         then .ok (.bulkString ((buffer.drop (len + 1)).take (len + 1 + i64AsUsize n - (len + 1))))
              (len + 1 + i64AsUsize n + 2)
         else .err .invalidEncoding)
       else .panic) := by
  have step1 : parse_bulk_string buffer =
      (match parse_int line with
       | .error e => .err e
       | .ok array_length =>
         if len + 1 + i64AsUsize array_length ≤ buffer.length then
           (if utf8Valid ((buffer.drop (len + 1)).take (len + 1 + i64AsUsize array_length - (len + 1)))
            then .ok (.bulkString ((buffer.drop (len + 1)).take (len + 1 + i64AsUsize array_length - (len + 1))))
                 (len + 1 + i64AsUsize array_length + 2)
            else .err .invalidEncoding)
         else .panic) := by
    rw [parse_bulk_string, h]
  rw [hp] at step1
  exact step1

theorem parse_array_with_ok (pm : List Nat → POut) (buffer line : List Nat) (len : Nat) (n : Int)
    (h : read_until_crlf (buffer.drop 1) = some (line, len))
    (hp : parse_int line = .ok n) :
    parse_array_with pm buffer = parse_loopF pm buffer (len + 1) n.toNat [] := by
  have step1 := parse_array_with_some pm buffer line len h
  rw [hp] at step1
  exact step1

/-! ### Canonical-frame list facts -/

theorem cons_append_crlf_drop (x : Nat) (line rest : List Nat) :
    (x :: (line ++ 13 :: 10 :: rest)).drop (line.length + 2 + 1) = rest := by
  have h : x :: (line ++ 13 :: 10 :: rest) = (x :: line ++ [13, 10]) ++ rest := by simp
  have h2 : (x :: line ++ [13, 10]).length = line.length + 2 + 1 := by
    simp only [List.length_append, List.length_cons, List.length_nil]
  rw [h, List.drop_left' h2]

theorem cons_append_crlf_length (x : Nat) (line rest : List Nat) :
    (x :: (line ++ 13 :: 10 :: rest)).length = line.length + 3 + rest.length := by
  simp only [List.length_cons, List.length_append]
  omega

/-! ### Behaviour of `parse_message` on canonical frames -/

/-- Decoding a well-formed simple-string frame: the bytes before the first
CRLF become the value, and `header length = text + 3` bytes are consumed. -/
theorem parse_simple_on (s rest : List Nat) (h1 : hasCRLF s = false)
    (h2 : utf8Valid s = true) :
    parse_message (43 :: (s ++ 13 :: 10 :: rest)) = .ok (.simpleString s) (s.length + 3) := by
  have hru : read_until_crlf ((43 :: (s ++ 13 :: 10 :: rest)).drop 1) = some (s, s.length + 2) :=
    read_until_crlf_append s rest h1
  rw [parse_message_cons, if_pos rfl, parse_simple_string_some _ s (s.length + 2) hru,
    if_pos h2]

/-- Decoding a bulk-string frame whose header line parses to `n ≥ 0`:
take `n` bytes after the header, never look at the two bytes accounted for as
the trailing delimiter, and report `header + n + 2` consumed; a declared
length exceeding the available bytes is a slice-bounds panic. -/
theorem parse_message_bulk (line rest : List Nat) (n : Int)
    (hline : hasCRLF line = false) (hparse : parse_int line = .ok n) (hn : 0 ≤ n) :
    parse_message (36 :: (line ++ 13 :: 10 :: rest)) =
      (if n.toNat ≤ rest.length then
        (if utf8Valid (rest.take n.toNat)
         then .ok (.bulkString (rest.take n.toNat)) (line.length + 3 + n.toNat + 2)
         else .err .invalidEncoding)
       else .panic) := by
  have hrange := parse_int_ok_range line n hparse
  have husz : i64AsUsize n = n.toNat := i64AsUsize_of_range n hn (by omega)
  have hru : read_until_crlf ((36 :: (line ++ 13 :: 10 :: rest)).drop 1)
      = some (line, line.length + 2) := read_until_crlf_append line rest hline
  rw [parse_message_cons, if_neg (by norm_num), if_pos rfl,
    parse_bulk_string_ok _ line (line.length + 2) n hru hparse, husz]
  by_cases hle : n.toNat ≤ rest.length
  · rw [if_pos hle,
      if_pos (show line.length + 2 + 1 + n.toNat ≤ (36 :: (line ++ 13 :: 10 :: rest)).length by
        rw [cons_append_crlf_length]; omega)]
    have hslice : ((36 :: (line ++ 13 :: 10 :: rest)).drop (line.length + 2 + 1)).take
        (line.length + 2 + 1 + n.toNat - (line.length + 2 + 1)) = rest.take n.toNat := by
      rw [show line.length + 2 + 1 + n.toNat - (line.length + 2 + 1) = n.toNat from by omega,
        cons_append_crlf_drop]
    rw [hslice]
  · rw [if_neg hle,
      if_neg (show ¬ line.length + 2 + 1 + n.toNat ≤ (36 :: (line ++ 13 :: 10 :: rest)).length by
        rw [cons_append_crlf_length]; omega)]

/-! ### The array loop on a sequence of well-formed element frames -/

theorem parse_loopF_elems (pm : List Nat → POut) (trailing : List Nat) :
    ∀ (es : List (List Nat)) (vs : List Value) (B : List Nat) (bc : Nat) (items : List Value),
      es.length = vs.length →
      bc ≤ B.length →
      B.drop bc = es.flatten ++ trailing →
      (∀ (i : Nat) (hi : i < es.length) (hi2 : i < vs.length),
        pm ((es.drop i).flatten ++ trailing) = .ok (vs.get ⟨i, hi2⟩) (es.get ⟨i, hi⟩).length) →
      parse_loopF pm B bc es.length items
        = .ok (.array (items ++ vs)) (bc + (es.map List.length).sum) := by
  intro es
  induction es with
  | nil =>
    intro vs B bc items hlen hbc hdrop helem
    have hvs : vs = [] := List.eq_nil_of_length_eq_zero hlen.symm
    subst hvs
    show POut.ok (.array items) bc = _
    rw [List.append_nil]
    norm_num
  | cons e es ih =>
    intro vs B bc items hlen hbc hdrop helem
    rcases vs with - | ⟨v, vs2⟩
    · exact absurd hlen (by simp)
    have h0 := helem 0 (by simp) (by simp)
    have h0' : pm (B.drop bc) = .ok v e.length := by
      rw [hdrop]
      simpa using h0
    rw [show (e :: es).length = es.length + 1 from rfl,
      parse_loopF_succ_ok pm B bc es.length items v e.length hbc h0']
    have hdl : (B.drop bc).length = e.length + (es.flatten.length + trailing.length) := by
      rw [hdrop]
      simp [List.length_append]
    have hBlen : B.length = bc + (e.length + (es.flatten.length + trailing.length)) := by
      have := List.length_drop bc B
      omega
    have hbc2 : bc + e.length ≤ B.length := by omega
    have hdrop2 : B.drop (bc + e.length) = es.flatten ++ trailing := by
      have h1 : B.drop (bc + e.length) = (B.drop bc).drop e.length := by
        rw [List.drop_drop, Nat.add_comm]
      rw [h1, hdrop]
      rw [show (e :: es).flatten = e ++ es.flatten from rfl, List.append_assoc, List.drop_left]
    have helem2 : ∀ (i : Nat) (hi : i < es.length) (hi2 : i < vs2.length),
        pm ((es.drop i).flatten ++ trailing) = .ok (vs2.get ⟨i, hi2⟩) (es.get ⟨i, hi⟩).length := by
      intro i hi hi2
      have := helem (i + 1) (by simpa using Nat.succ_lt_succ hi) (by simpa using Nat.succ_lt_succ hi2)
      simpa using this
    rw [ih vs2 B (bc + e.length) (items ++ [v]) (by simpa using hlen) hbc2 hdrop2 helem2]
    simp [List.append_assoc]
    omega

/-! ### Claim theorems -/

/-- C6: the frame scanner returns the sub-slice before the first CRLF pair
together with the total consumed length including the two delimiter bytes, and
returns the "not found" signal (`none`) exactly when no CRLF pair occurs in
the slice. -/
theorem read_until_crlf_spec (buffer pre rest : List Nat) :
    (read_until_crlf buffer = none ↔ hasCRLF buffer = false) ∧
    (buffer = pre ++ 13 :: 10 :: rest → hasCRLF pre = false →
      read_until_crlf buffer = some (pre, pre.length + 2)) := by
  constructor
  · constructor
    · intro hn
      cases hcr : hasCRLF buffer
      · rfl
      · have := read_until_crlf_isSome buffer hcr
        rw [hn] at this
        exact absurd this (by simp)
    · exact read_until_crlf_none buffer
  · intro h1 h2
    rw [h1]
    exact read_until_crlf_append pre rest h2

theorem read_until_crlf_spec_witness :
    read_until_crlf [65, 13, 10, 66] = some ([65], 3) :=
  (read_until_crlf_spec [65, 13, 10, 66] [65] [66]).2 rfl rfl

/-- C9: a zero-byte transport read makes `read_value` return the distinct
"no value" outcome (`Ok(None)` — modelled `.closed`), not an error, and any
buffer whose leading byte is none of `+` (43), `$` (36), `*` (42) fails with
the UnknownType error. -/
theorem closed_connection_and_unknown_type :
    (∀ acc : List Nat, read_value acc [] = (.closed, acc)) ∧
    (∀ (b : Nat) (t : List Nat), b ≠ 43 → b ≠ 36 → b ≠ 42 →
      parse_message (b :: t) = .err .unknownType) := by
  constructor
  · intro acc
    rfl
  · intro b t h43 h36 h42
    rw [parse_message_cons, if_neg h43, if_neg h36, if_neg h42]

theorem closed_connection_and_unknown_type_witness :
    read_value [1] [] = (.closed, [1]) ∧
      parse_message [37, 98, 97, 100, 13, 10] = .err .unknownType :=
  ⟨closed_connection_and_unknown_type.1 [1],
   closed_connection_and_unknown_type.2 37 [98, 97, 100, 13, 10]
     (by norm_num) (by norm_num) (by norm_num)⟩

/-- C10: a `*` frame whose declared count is a negative decimal integer
(`-m`, `1 ≤ m ≤ 2^63`) decodes successfully: the `for _ in 0..n` loop over the
negative `i64` runs zero times, so the result is the empty Array with consumed
count equal to the header length alone (prefix + sign + digits + CRLF). -/
theorem negative_count_empty_array (m : Nat) (rest : List Nat)
    (h1 : 1 ≤ m) (h2 : m ≤ 2 ^ 63) :
    parse_message (42 :: ((45 :: natDecimal m) ++ 13 :: 10 :: rest)) =
      .ok (.array []) ((natDecimal m).length + 4) := by
  have hline : hasCRLF (45 :: natDecimal m) = false :=
    hasCRLF_false_of_no13 _ (fun b hb => by
      rcases List.mem_cons.mp hb with rfl | hb2
      · omega
      · have := natDecimal_digits m b hb2; omega)
  have hru : read_until_crlf ((42 :: ((45 :: natDecimal m) ++ 13 :: 10 :: rest)).drop 1)
      = some (45 :: natDecimal m, (45 :: natDecimal m).length + 2) :=
    read_until_crlf_append (45 :: natDecimal m) rest hline
  have hpi := parse_int_neg_natDecimal m h2
  rw [parse_message_cons, if_neg (by norm_num), if_neg (by norm_num), if_pos rfl,
    parse_array_with_ok _ _ (45 :: natDecimal m) ((45 :: natDecimal m).length + 2)
      (-(m : Int)) hru hpi]
  rw [show (-(m : Int)).toNat = 0 from Int.toNat_eq_zero.mpr (by
    have : (0 : Int) ≤ (m : Int) := Int.natCast_nonneg m
    omega)]
  rfl

theorem negative_count_empty_array_witness :
    parse_message [42, 45, 49, 13, 10] = .ok (.array []) 5 :=
  negative_count_empty_array 1 [] (by norm_num) (by norm_num)

/-- C7 counterexample: the buffer "+OK\r\n+A\r\n" holds two frames; decoding
the first consumes 5 of the 9 bytes, yet after `read_value` the handler's
buffer is empty — the unconsumed tail "+A\r\n" is discarded instead of
remaining for subsequent decodes. -/
theorem read_value_discards_tail :
    read_value [] [43, 79, 75, 13, 10, 43, 65, 13, 10]
      = (.value (.simpleString [79, 75]), []) ∧
    (read_value [] [43, 79, 75, 13, 10, 43, 65, 13, 10]).2
      ≠ List.drop 5 [43, 79, 75, 13, 10, 43, 65, 13, 10] :=
  ⟨rfl, by decide⟩

/-- C7 (amended): whenever `read_value` receives at least one new byte, it
hands the *entire* accumulated buffer to the decoder via `BytesMut::split()`
and discards the decoder's consumed count (`let (v, _) = ...`), so afterwards
the handler's buffer is empty: bytes beyond the decoded frame are removed as
well, not retained. -/
theorem read_value_drains_buffer (acc newBytes : List Nat) (h : newBytes ≠ []) :
    (read_value acc newBytes).2 = [] := by
  rw [read_value, if_neg h]
  cases parse_message (acc ++ newBytes) <;> rfl

theorem read_value_drains_buffer_witness :
    (read_value [] [43, 79, 75, 13, 10, 43, 66, 13, 10]).2 = [] :=
  read_value_drains_buffer [] [43, 79, 75, 13, 10, 43, 66, 13, 10] (by simp)

/-- C8 counterexample: the simple-string frame `+ 0xFF \r\n` has an invalid
UTF-8 payload; `parse_simple_string` calls
`String::from_utf8(line.to_vec()).unwrap()` and panics instead of returning a
typed InvalidEncoding error. -/
theorem simple_string_invalid_utf8_panics :
    parse_message [43, 255, 13, 10] = .panic := rfl

/-- C8 (amended): an invalid-UTF-8 payload in a `$` bulk frame yields the typed
InvalidEncoding error (`String::from_utf8(...)?`), but in a `+` simple-string
frame the same condition panics (`.unwrap()`), not a typed error. -/
theorem invalid_encoding_behaviour :
    (∀ (line rest : List Nat) (n : Int), hasCRLF line = false → parse_int line = .ok n →
      0 ≤ n → n.toNat ≤ rest.length → utf8Valid (rest.take n.toNat) = false →
      parse_message (36 :: (line ++ 13 :: 10 :: rest)) = .err .invalidEncoding) ∧
    (∀ s rest : List Nat, hasCRLF s = false → utf8Valid s = false →
      parse_message (43 :: (s ++ 13 :: 10 :: rest)) = .panic) := by
  constructor
  · intro line rest n hline hp hn hle hv
    rw [parse_message_bulk line rest n hline hp hn, if_pos hle, if_neg (by simp [hv])]
  · intro s rest h1 h2
    have hru : read_until_crlf ((43 :: (s ++ 13 :: 10 :: rest)).drop 1)
        = some (s, s.length + 2) := read_until_crlf_append s rest h1
    rw [parse_message_cons, if_pos rfl, parse_simple_string_some _ s (s.length + 2) hru,
      if_neg (by simp [h2])]

theorem invalid_encoding_behaviour_witness :
    parse_message [36, 49, 13, 10, 255, 13, 10] = .err .invalidEncoding ∧
    parse_message [43, 255, 13, 10] = .panic := by
  constructor
  · exact invalid_encoding_behaviour.1 (natDecimal 1) [255, 13, 10] 1 (by decide)
      (parse_int_natDecimal 1 (by norm_num)) (by norm_num) (by decide) (by decide)
  · exact invalid_encoding_behaviour.2 [255] [] (by decide) (by decide)

/-- C2 counterexample: `$5\r\nab` declares 5 payload bytes but only 2 are
present after the header; decode panics on the out-of-range slice
`buffer[4..9]` instead of returning a typed (TruncatedFrame-like) error. -/
theorem truncated_bulk_panics : parse_message [36, 53, 13, 10, 97, 98] = .panic := rfl

/-- C2 (amended): a nonempty buffer with no CRLF delimiter anywhere yields a
typed error from every dispatch branch (malformed header, or unknown type for
an unrecognised prefix); but a `$` frame whose declared length exceeds the
bytes available after the header causes a slice-bounds panic — a Rust
bounds-check abort, not a typed error (though never an out-of-bounds memory
access). -/
theorem malformed_input_behaviour :
    (∀ buffer : List Nat, buffer ≠ [] → hasCRLF buffer = false →
      ∃ e, parse_message buffer = .err e) ∧
    (∀ (line rest : List Nat) (n : Int), hasCRLF line = false → parse_int line = .ok n →
      0 ≤ n → rest.length < n.toNat →
      parse_message (36 :: (line ++ 13 :: 10 :: rest)) = .panic) := by
  constructor
  · intro buffer hne hcr
    cases buffer with
    | nil => exact absurd rfl hne
    | cons x t =>
      have hdru : read_until_crlf ((x :: t).drop 1) = none :=
        read_until_crlf_none _ (hasCRLF_drop_one _ hcr)
      by_cases h43 : x = 43
      · exact ⟨.malformedHeader, by
          rw [parse_message_cons, if_pos h43]
          exact parse_simple_string_none _ hdru⟩
      · by_cases h36 : x = 36
        · exact ⟨.malformedHeader, by
            rw [parse_message_cons, if_neg h43, if_pos h36]
            exact parse_bulk_string_none _ hdru⟩
        · by_cases h42 : x = 42
          · exact ⟨.malformedHeader, by
              rw [parse_message_cons, if_neg h43, if_neg h36, if_pos h42]
              exact parse_array_with_none _ _ hdru⟩
          · exact ⟨.unknownType, by
              rw [parse_message_cons, if_neg h43, if_neg h36, if_neg h42]⟩
  · intro line rest n hline hp hn hlt
    rw [parse_message_bulk line rest n hline hp hn, if_neg (by omega)]

theorem malformed_input_behaviour_witness :
    (∃ e, parse_message [36] = .err e) ∧
      parse_message [36, 53, 13, 10, 97, 98] = .panic := by
  constructor
  · exact malformed_input_behaviour.1 [36] (by simp) (by decide)
  · exact malformed_input_behaviour.2 (natDecimal 5) [97, 98] 5 (by decide)
      (parse_int_natDecimal 5 (by norm_num)) (by norm_num) (by decide)

/-- C3 counterexample: `$3\r\nfooXY` — the two bytes following the 3 payload
bytes are `X`,`Y` (88, 89), not CRLF, yet decoding succeeds as
`BulkString "foo"` with consumed = 9: the delimiter mismatch is silently
accepted, not a decode failure. -/
theorem bulk_trailing_not_checked :
    parse_message [36, 51, 13, 10, 102, 111, 111, 88, 89]
      = .ok (.bulkString [102, 111, 111]) 9 ∧
    List.drop 7 [36, 51, 13, 10, 102, 111, 111, 88, 89] ≠ [13, 10] :=
  ⟨rfl, by decide⟩

/-- C3 (amended): for a `$` frame the decoder reads the declared length `n`
from the header, takes exactly `n` bytes as the value's text, and reports
consumed = header + n + 2 — but it never checks that the two bytes it accounts
for as the trailing delimiter are CRLF (they may be any bytes, or even
absent): a mismatch is silently accepted. -/
theorem bulk_decode_behaviour (line rest : List Nat) (n : Int)
    (hline : hasCRLF line = false) (hparse : parse_int line = .ok n) (hn : 0 ≤ n)
    (hle : n.toNat ≤ rest.length) (hv : utf8Valid (rest.take n.toNat) = true) :
    parse_message (36 :: (line ++ 13 :: 10 :: rest))
      = .ok (.bulkString (rest.take n.toNat)) (line.length + 3 + n.toNat + 2) := by
  rw [parse_message_bulk line rest n hline hparse hn, if_pos hle, if_pos hv]

theorem bulk_decode_behaviour_witness :
    parse_message [36, 53, 13, 10, 104, 101, 108, 108, 111, 13, 10]
      = .ok (.bulkString [104, 101, 108, 108, 111]) 11 :=
  bulk_decode_behaviour (natDecimal 5) [104, 101, 108, 108, 111, 13, 10] 5 (by decide)
    (parse_int_natDecimal 5 (by norm_num)) (by norm_num) (by decide) (by decide)

/-- C4 counterexample: the text `é` is the two bytes [195, 169] but one char;
the encoder writes `$1`, i.e. the char count 1 ([49]), not the byte count 2 —
the encoded bytes differ from what a byte-count header would produce. -/
theorem bulk_header_counts_chars :
    serialise (.bulkString [195, 169]) = some [36, 49, 13, 10, 195, 169, 13, 10] ∧
    serialise (.bulkString [195, 169])
      ≠ some (36 :: (natDecimal ([195, 169] : List Nat).length
          ++ 13 :: 10 :: ([195, 169] ++ [13, 10]))) :=
  ⟨rfl, by decide⟩

/-- C4 (amended): the decimal length written in the bulk header is
`s.chars().count()` — the number of Unicode scalar values of the text — which
coincides with the exact byte count precisely when the text is ASCII. -/
theorem bulk_header_length_unit (s : List Nat) :
    serialise (.bulkString s)
      = some (36 :: (natDecimal (charCount s) ++ [13, 10] ++ s ++ [13, 10])) ∧
    ((∀ b ∈ s, b < 128) → charCount s = s.length) :=
  ⟨rfl, charCount_of_ascii s⟩

theorem bulk_header_length_unit_witness :
    serialise (.bulkString [104, 105])
      = some (36 :: (natDecimal (charCount [104, 105]) ++ [13, 10] ++ [104, 105] ++ [13, 10])) ∧
    charCount [104, 105] = 2 :=
  ⟨(bulk_header_length_unit [104, 105]).1, (bulk_header_length_unit [104, 105]).2 (by decide)⟩

/-- C1 counterexample: `Value::serialise` hits the
`panic!("Not implemented for serialize")` arm on every Array value (modelled
as `none`), so `decode(encode(v))` is not even defined for arrays and the
round-trip claim fails for them. -/
theorem serialise_array_panics : serialise (.array []) = none := rfl

/-- C1 (amended): the round-trip `decode(encode(v)) = (v, len(encode(v)))`
holds exactly for the scalar values the encoder handles correctly: simple
strings whose text is valid UTF-8 and contains no CRLF, and bulk strings whose
text is ASCII (shorter than 2^63 bytes, so char count = byte count in the
header).  Arrays panic in the encoder; non-ASCII bulk strings get a char-count
header that breaks the round-trip; simple strings containing CRLF re-parse
short. -/
theorem decode_encode_roundtrip (v : Value)
    (h : match v with
         | .simpleString s => utf8Valid s = true ∧ hasCRLF s = false
         | .bulkString s => (∀ b ∈ s, b < 128) ∧ s.length < 2 ^ 63
         | .array _ => False) :
    ∃ enc, serialise v = some enc ∧ parse_message enc = .ok v enc.length := by
  cases v with
  | simpleString s =>
    obtain ⟨h1, h2⟩ := h
    refine ⟨43 :: (s ++ [13, 10]), rfl, ?_⟩
    have hl : (43 :: (s ++ [13, 10])).length = s.length + 3 := by
      simp [List.length_append]
    rw [hl]
    exact parse_simple_on s [] h2 h1
  | bulkString s =>
    obtain ⟨hascii, hlen⟩ := h
    have hcc : charCount s = s.length := charCount_of_ascii s hascii
    refine ⟨36 :: (natDecimal (charCount s) ++ [13, 10] ++ s ++ [13, 10]), rfl, ?_⟩
    have hD := natDecimal_digits s.length
    have hbulk := parse_message_bulk (natDecimal s.length) (s ++ [13, 10]) (s.length : Int)
      (hasCRLF_false_of_no13 _ (fun b hb => by have := hD b hb; omega))
      (parse_int_natDecimal s.length hlen)
      (Int.natCast_nonneg s.length)
    rw [Int.toNat_natCast, List.take_left] at hbulk
    have hle2 : s.length ≤ (s ++ [13, 10]).length := by
      rw [List.length_append]
      omega
    have hval2 : utf8Valid s = true := utf8Valid_of_ascii s hascii
    rw [if_pos hle2, if_pos hval2] at hbulk
    have hl : (36 :: (natDecimal (charCount s) ++ [13, 10] ++ s ++ [13, 10])).length
        = (natDecimal s.length).length + 3 + s.length + 2 := by
      rw [hcc]
      simp only [List.length_cons, List.length_append, List.length_nil]
      omega
    rw [hl, hcc]
    have hbuf : natDecimal s.length ++ [13, 10] ++ s ++ [13, 10]
        = natDecimal s.length ++ 13 :: 10 :: (s ++ [13, 10]) := by simp
    rw [hbuf]
    exact hbulk
  | array l => exact h.elim

theorem decode_encode_roundtrip_witness :
    ∃ enc, serialise (.simpleString [79, 75]) = some enc ∧
      parse_message enc = .ok (.simpleString [79, 75]) enc.length :=
  decode_encode_roundtrip (.simpleString [79, 75]) (by refine ⟨?_, ?_⟩ <;> decide)

theorem join_drop_length_le (es : List (List Nat)) (i : Nat) :
    ((es.drop i).flatten).length ≤ es.flatten.length := by
  conv_rhs => rw [← List.take_append_drop i es]
  rw [List.flatten_append, List.length_append]
  omega

/-- C5: decoding a `*` frame with declared count `n = es.length ≥ 0` followed
by `n` well-formed element frames (each element frame parses to its value
consuming exactly its own bytes, whatever follows it) yields the Array of
exactly those `n` element values in left-to-right order, and the consumed
count is the header length plus the sum of the elements' consumed lengths;
bytes beyond the frame (`trailing`) are not consumed.  Stated compositionally,
this holds at every nesting depth. -/
theorem array_decode_additive (es : List (List Nat)) (vs : List Value) (trailing : List Nat)
    (hlen : es.length = vs.length) (hcount : es.length < 2 ^ 63)
    (helem : ∀ (i : Nat) (hi : i < es.length) (hi2 : i < vs.length) (rest : List Nat),
      parse_message (es.get ⟨i, hi⟩ ++ rest) = .ok (vs.get ⟨i, hi2⟩) (es.get ⟨i, hi⟩).length) :
    parse_message (42 :: (natDecimal es.length ++ 13 :: 10 :: (es.flatten ++ trailing))) =
      .ok (.array vs) ((natDecimal es.length).length + 3 + (es.map List.length).sum) := by
  have hD := natDecimal_digits es.length
  have hline : hasCRLF (natDecimal es.length) = false :=
    hasCRLF_false_of_no13 _ (fun b hb => by have := hD b hb; omega)
  have hru : read_until_crlf
        ((42 :: (natDecimal es.length ++ 13 :: 10 :: (es.flatten ++ trailing))).drop 1)
      = some (natDecimal es.length, (natDecimal es.length).length + 2) :=
    read_until_crlf_append (natDecimal es.length) (es.flatten ++ trailing) hline
  have hpi := parse_int_natDecimal es.length hcount
  rw [parse_message_cons, if_neg (by norm_num), if_neg (by norm_num), if_pos rfl,
    parse_array_with_ok _ _ (natDecimal es.length) ((natDecimal es.length).length + 2)
      (es.length : Int) hru hpi, Int.toNat_natCast]
  have hbc : (natDecimal es.length).length + 2 + 1
      ≤ (42 :: (natDecimal es.length ++ 13 :: 10 :: (es.flatten ++ trailing))).length := by
    rw [cons_append_crlf_length]
    omega
  have hdrop : (42 :: (natDecimal es.length ++ 13 :: 10 :: (es.flatten ++ trailing))).drop
      ((natDecimal es.length).length + 2 + 1) = es.flatten ++ trailing :=
    cons_append_crlf_drop 42 (natDecimal es.length) (es.flatten ++ trailing)
  have helem2 : ∀ (i : Nat) (hi : i < es.length) (hi2 : i < vs.length),
      parse_messageF ((natDecimal es.length ++ 13 :: 10 :: (es.flatten ++ trailing)).length + 1)
          ((es.drop i).flatten ++ trailing)
        = .ok (vs.get ⟨i, hi2⟩) (es.get ⟨i, hi⟩).length := by
    intro i hi hi2
    have hsplit : (es.drop i).flatten ++ trailing
        = es.get ⟨i, hi⟩ ++ ((es.drop (i + 1)).flatten ++ trailing) := by
      conv_lhs => rw [List.drop_eq_getElem_cons hi]
      rw [List.flatten_cons, List.append_assoc, List.get_eq_getElem]
    have hp := helem i hi hi2 ((es.drop (i + 1)).flatten ++ trailing)
    rw [hsplit]
    refine parse_messageF_of_parse_message _ _ hp (by simp) _ ?_
    have hjoin := join_drop_length_le es i
    have hsplitlen := congrArg List.length hsplit
    simp only [List.length_append, List.length_cons] at hsplitlen ⊢
    omega
  exact parse_loopF_elems _ trailing es vs _ _ [] hlen hbc hdrop helem2

theorem array_decode_additive_witness :
    parse_message [42, 49, 13, 10, 42, 49, 13, 10, 43, 111, 107, 13, 10]
      = .ok (.array [.array [.simpleString [111, 107]]]) 13 := by
  have hsimple : ∀ rest : List Nat,
      parse_message ([43, 111, 107, 13, 10] ++ rest) = .ok (.simpleString [111, 107]) 5 :=
    fun rest => parse_simple_on [111, 107] rest rfl rfl
  have hinner : ∀ rest : List Nat,
      parse_message ([42, 49, 13, 10, 43, 111, 107, 13, 10] ++ rest)
        = .ok (.array [.simpleString [111, 107]]) 9 := by
    intro rest
    exact array_decode_additive [[43, 111, 107, 13, 10]] [.simpleString [111, 107]] rest
      rfl (by norm_num)
      (fun i hi hi2 rest2 => by
        have hi0 : i = 0 := by simp only [List.length_singleton] at hi; omega
        subst hi0
        exact hsimple rest2)
  exact array_decode_additive [[42, 49, 13, 10, 43, 111, 107, 13, 10]]
    [.array [.simpleString [111, 107]]] [] rfl (by norm_num)
    (fun i hi hi2 rest2 => by
      have hi0 : i = 0 := by simp only [List.length_singleton] at hi; omega
      subst hi0
      exact hinner rest2)
